import Mathlib

/-!
# LognormalRV (SRC/reliability/domain/distributions/LognormalRV.cpp)

A shallow embedding of the lognormal random variable of the OpenSees
reliability module, and the properties its specification states about it.

`double` is read as an element of a linearly ordered field `α`; the theorems
take `α := ℝ` with the elementary functions of `<cmath>` read as the real
functions (`realMath`).  The definitions are generic in `α` and in the
elementary functions, so they stay computable (they run over `ℚ` once a
`CMath ℚ` is supplied).

The class `NormalRV` is declared and defined outside this source file; the two
member functions `LognormalRV` calls are the fields of the parameter
`NormalRV α`.  The stream `opserr` is modelled by the list of the messages
written to it.
-/

namespace OpenSees

/-- The functions of `<cmath>` and the global constant `pi` that
`LognormalRV.cpp` uses. -/
structure CMath (α : Type) where
  exp : α → α
  log : α → α
  sqrt : α → α
  pow : α → α → α
  fabs : α → α
  pi : α

/-- The `<cmath>` functions over the real numbers. -/
noncomputable def realMath : CMath ℝ where
  exp := Real.exp
  log := Real.log
  sqrt := Real.sqrt
  pow := fun x y => x ^ y
  fabs := fun x => |x|
  pi := Real.pi

/-- The standard-normal helper `NormalRV aStandardNormalRV(1, 0.0, 1.0)`: its
class is not defined in `LognormalRV.cpp`, so the two member functions that
are called on it are parameters. -/
structure NormalRV (α : Type) where
  getCDFvalue : α → α
  getInverseCDFvalue : α → α

/-- The data members of `LognormalRV` (with the tag kept by the base class
`RandomVariable`). -/
structure LognormalRV (α : Type) where
  tag : Int
  startValue : α
  lambda : α
  zeta : α
  isPositive : Bool

/-- The value returned by a member function together with what it wrote to
`opserr` and the arguments it passed to the standard-normal helper's
`getInverseCDFvalue`, in order. -/
structure Eval (α : Type) where
  value : α
  opserr : List String
  normalCalls : List α

namespace LognormalRV

variable {α : Type} [LinearOrderedField α]

/-- `LognormalRV::setParameters(double mean, double stdv)`: the updated object
and the returned status. -/
def setParameters (M : CMath α) (rv : LognormalRV α) (mean stdv : α) :
    LognormalRV α × Int :=
  let zeta := M.sqrt (M.log (1 + (stdv / mean) * (stdv / mean)))
  let lambda := M.log mean - 0.5 * zeta * zeta
  ({ rv with zeta := zeta, lambda := lambda }, 0)

/-- `LognormalRV::LognormalRV(int passedTag, double passedMean, double passedStdv)`:
the constructed object and what the constructor wrote to `opserr`.  The members
`lambda` and `zeta` are unset before `setParameters` assigns them; they are
given as `0` there. -/
def ofMoments (M : CMath α) (passedTag : Int) (passedMean passedStdv : α) :
    LognormalRV α × List String :=
  let isPositive := if passedMean < 0 then false else true
  let passedMean := if passedMean < 0 then -passedMean else passedMean
  let r := setParameters M
    { tag := passedTag, startValue := 0, lambda := 0, zeta := 0, isPositive := isPositive }
    passedMean passedStdv
  let setp := r.2
  (r.1,
    if setp < 0 then
      ["Error setting parameters in Lognormal RV with tag " ++ toString passedTag ++ "\n"]
    else [])

/-- `LognormalRV::LognormalRV(int passedTag, const Vector &passedParameters)`:
the constructed object and what the constructor wrote to `opserr`.  A `Vector`
is the list of its entries, `Size()` its length. -/
def ofParameters (passedTag : Int) (passedParameters : List α) :
    LognormalRV α × List String :=
  if passedParameters.length ≠ 2 then
    ({ tag := passedTag, startValue := 0, lambda := 0, zeta := 0, isPositive := true },
      ["Lognormal RV requires 2 parameters, lambda and zeta, for RV with tag "
        ++ toString passedTag ++ "\n"])
  else
    let lambda := passedParameters.getD 0 0
    let zeta := passedParameters.getD 1 0
    if lambda < 0 then
      ({ tag := passedTag, startValue := 0, lambda := -lambda, zeta := zeta,
         isPositive := false }, [])
    else
      ({ tag := passedTag, startValue := 0, lambda := lambda, zeta := zeta,
         isPositive := true }, [])

/-- `LognormalRV::getType()`. -/
def getType (_rv : LognormalRV α) : String := "LOGNORMAL"

/-- `LognormalRV::getMean()`. -/
def getMean (M : CMath α) (rv : LognormalRV α) : α :=
  if rv.isPositive then
    M.exp (rv.lambda + 0.5 * rv.zeta * rv.zeta)
  else
    -M.exp (rv.lambda + 0.5 * rv.zeta * rv.zeta)

/-- `LognormalRV::getStdv()`. -/
def getStdv (M : CMath α) (rv : LognormalRV α) : α :=
  M.exp (rv.lambda + 0.5 * rv.zeta * rv.zeta) * M.sqrt (M.exp (rv.zeta * rv.zeta) - 1)

/-- `LognormalRV::getParameters()`: the two entries of the returned `Vector`. -/
def getParameters (rv : LognormalRV α) : List α :=
  [rv.lambda, rv.zeta]

/-- `LognormalRV::getPDFvalue(double rvValue)`. -/
def getPDFvalue (M : CMath α) (rv : LognormalRV α) (rvValue : α) : α :=
  let rvValue := if !rv.isPositive then -rvValue else rvValue
  if 0 < rvValue then
    1 / (M.sqrt (2 * M.pi) * rv.zeta * rvValue)
      * M.exp (-0.5 * M.pow ((M.log rvValue - rv.lambda) / rv.zeta) 2)
  else
    0

/-- `LognormalRV::getCDFvalue(double rvValue)`: the branch on `isPositive`
computes `result`, the final `if` returns `result` or `1 - result`. -/
def getCDFvalue (M : CMath α) (N : NormalRV α) (rv : LognormalRV α) (rvValue : α) : α :=
  let result :=
    if rv.isPositive then
      if 0 < rvValue then
        N.getCDFvalue ((M.log rvValue - rv.lambda) / rv.zeta)
      else
        0
    else
      if rvValue < 0 then
        1 - N.getCDFvalue ((M.log (M.fabs rvValue) - rv.lambda) / rv.zeta)
      else
        1
  if rv.isPositive then result else 1 - result

/-- `LognormalRV::getInverseCDFvalue(double probValue)`. -/
def getInverseCDFvalue (M : CMath α) (N : NormalRV α) (rv : LognormalRV α)
    (probValue : α) : Eval α :=
  if probValue > 1 ∨ probValue < 0 then
    { value := 0,
      opserr := ["Invalid probability value input to inverse CDF function\n"],
      normalCalls := [] }
  else
    if rv.isPositive then
      let inverseNormal := N.getInverseCDFvalue probValue
      { value := M.exp (inverseNormal * rv.zeta + rv.lambda),
        opserr := [],
        normalCalls := [probValue] }
    else
      let inverseNormal := N.getInverseCDFvalue (1 - probValue)
      { value := -M.exp (inverseNormal * rv.zeta + rv.lambda),
        opserr := [],
        normalCalls := [1 - probValue] }

/-- The body of `LognormalRV::getCDFvalue` that the source keeps in a comment
after the `return` statements (lines 191 to 216): `rvValue` is negated for a
negative instance, the ordinary distribution function is computed, and the
result is complemented once. -/
def getCDFvalueSingleFlip (M : CMath α) (N : NormalRV α) (rv : LognormalRV α)
    (rvValue : α) : α :=
  let rvValue := if !rv.isPositive then -rvValue else rvValue
  let result :=
    if 0 < rvValue then
      N.getCDFvalue ((M.log rvValue - rv.lambda) / rv.zeta)
    else
      0
  if rv.isPositive then result else 1 - result

/-- Division as an operation that fails on a zero divisor. -/
def checkedDiv (a b : α) : Option α :=
  if b = 0 then none else some (a / b)

/-- `LognormalRV::getPDFvalue(double rvValue)` with every `/` of the source
read as `checkedDiv`: `none` when a division by zero is performed. -/
def getPDFvalueChecked (M : CMath α) (rv : LognormalRV α) (rvValue : α) : Option α :=
  let rvValue := if !rv.isPositive then -rvValue else rvValue
  if 0 < rvValue then
    (checkedDiv 1 (M.sqrt (2 * M.pi) * rv.zeta * rvValue)).bind fun c =>
    (checkedDiv (M.log rvValue - rv.lambda) rv.zeta).bind fun u =>
    some (c * M.exp (-0.5 * M.pow u 2))
  else
    some 0

/-- `LognormalRV::getCDFvalue(double rvValue)` with every `/` of the source
read as `checkedDiv`: `none` when a division by zero is performed. -/
def getCDFvalueChecked (M : CMath α) (N : NormalRV α) (rv : LognormalRV α)
    (rvValue : α) : Option α :=
  let result : Option α :=
    if rv.isPositive then
      if 0 < rvValue then
        (checkedDiv (M.log rvValue - rv.lambda) rv.zeta).bind fun u =>
        some (N.getCDFvalue u)
      else
        some 0
    else
      if rvValue < 0 then
        (checkedDiv (M.log (M.fabs rvValue) - rv.lambda) rv.zeta).bind fun u =>
        some (1 - N.getCDFvalue u)
      else
        some 1
  if rv.isPositive then result else result.bind fun r => some (1 - r)

end LognormalRV

/-- Modelled from the spec: the density of the standard normal law,
`(1/√(2π)) · exp(-x²/2)`; the class `NormalRV` that computes it is not in
`LognormalRV.cpp`. -/
noncomputable def standardNormalPDF (x : ℝ) : ℝ :=
  1 / Real.sqrt (2 * Real.pi) * Real.exp (-(x ^ 2) / 2)

/-- Modelled from the spec: the distribution function of the standard normal
law, the probability mass at or below `x`; the class `NormalRV` that computes
it is not in `LognormalRV.cpp`. -/
noncomputable def standardNormalCDF (x : ℝ) : ℝ :=
  ∫ t in Set.Iic x, standardNormalPDF t

/-- Modelled from the spec: the standard-normal helper with the exact
distribution function and, as quantile at `p` in `[0, 1]`, an `x` with
`standardNormalCDF x = p` when there is one; the quantile outside `[0, 1]` is
the sentinel `0`.  The class `NormalRV` is not in `LognormalRV.cpp`. -/
noncomputable def standardNormal : NormalRV ℝ where
  getCDFvalue := standardNormalCDF
  getInverseCDFvalue := fun p =>
    if 0 ≤ p ∧ p ≤ 1 then Function.invFun standardNormalCDF p else 0

/-- A standard-normal helper over the reals whose `getCDFvalue` is strictly
increasing with values in `(0, 1)` and whose `getInverseCDFvalue` is its
inverse on `(0, 1)`: the logistic pair.  It stands for the helper wherever a
property is stated for every helper with these properties. -/
noncomputable def logisticNormal : NormalRV ℝ where
  getCDFvalue := fun t => 1 / (1 + Real.exp (-t))
  getInverseCDFvalue := fun q => Real.log (q / (1 - q))

/-- A `CMath ℚ` of rational stand-ins, for running the definitions. -/
def toyMath : CMath ℚ where
  exp := fun x => 1 + x
  log := fun x => x - 1
  sqrt := fun x => x
  pow := fun x _ => x * x
  fabs := fun x => |x|
  pi := 3

example : (LognormalRV.ofParameters 7 [(-1 : ℚ), 3/10]).1.lambda = 1 := by decide
example : (LognormalRV.ofParameters 7 [(-1 : ℚ), 3/10]).1.isPositive = false := by decide
example : (LognormalRV.ofParameters 7 [(1 : ℚ), 2, 3]).2.length = 1 := by decide
example : (LognormalRV.ofMoments toyMath 7 (-2) 1).1.isPositive = false := by decide
example : (LognormalRV.ofMoments toyMath 7 0 1).2 = [] := by decide
example :
    (LognormalRV.getInverseCDFvalue toyMath ⟨id, id⟩
      { tag := 7, startValue := 0, lambda := 1, zeta := 2, isPositive := false }
      (3 / 2)).normalCalls = [] := by
  norm_num [LognormalRV.getInverseCDFvalue]
example :
    LognormalRV.getCDFvalue toyMath ⟨id, id⟩
      { tag := 7, startValue := 0, lambda := 1, zeta := 2, isPositive := false } 5 = 0 := by
  norm_num [LognormalRV.getCDFvalue]
example :
    LognormalRV.getPDFvalue toyMath
      { tag := 7, startValue := 0, lambda := 1, zeta := 2, isPositive := true } (-5) = 0 := by
  decide
example :
    LognormalRV.getCDFvalueSingleFlip toyMath ⟨id, id⟩
      { tag := 7, startValue := 0, lambda := 1, zeta := 2, isPositive := false } 5 = 1 := by
  norm_num [LognormalRV.getCDFvalueSingleFlip]
example :
    LognormalRV.getPDFvalueChecked toyMath
      { tag := 7, startValue := 0, lambda := 0, zeta := 0, isPositive := true } 5 = none := by
  norm_num [LognormalRV.getPDFvalueChecked, LognormalRV.checkedDiv]
example :
    LognormalRV.getCDFvalueChecked toyMath ⟨id, id⟩
      { tag := 7, startValue := 0, lambda := 1, zeta := 2, isPositive := true } 5
      = some (3 / 2) := by
  norm_num [LognormalRV.getCDFvalueChecked, LognormalRV.checkedDiv, toyMath]

/-! ## The moment constructor over the reals -/

section Moments

open LognormalRV

/-- The object the moment constructor builds from a non-negative mean. -/
theorem ofMoments_of_nonneg (tag : Int) (m s : ℝ) (hm : 0 ≤ m) :
    (ofMoments realMath tag m s).1 =
      { tag := tag, startValue := 0,
        lambda := Real.log m
          - 0.5 * Real.sqrt (Real.log (1 + (s / m) * (s / m)))
              * Real.sqrt (Real.log (1 + (s / m) * (s / m))),
        zeta := Real.sqrt (Real.log (1 + (s / m) * (s / m))),
        isPositive := true } := by
  simp [ofMoments, setParameters, realMath, not_lt.mpr hm]

/-- The object the moment constructor builds from a negative mean. -/
theorem ofMoments_of_neg (tag : Int) (m s : ℝ) (hm : m < 0) :
    (ofMoments realMath tag m s).1 =
      { tag := tag, startValue := 0,
        lambda := Real.log (-m)
          - 0.5 * Real.sqrt (Real.log (1 + (s / -m) * (s / -m)))
              * Real.sqrt (Real.log (1 + (s / -m) * (s / -m))),
        zeta := Real.sqrt (Real.log (1 + (s / -m) * (s / -m))),
        isPositive := false } := by
  simp [ofMoments, setParameters, realMath, hm]

/-- The logarithm under the square root of `setParameters` is not negative. -/
theorem log_one_add_sq_nonneg (r : ℝ) : 0 ≤ Real.log (1 + r * r) :=
  Real.log_nonneg (by nlinarith [mul_self_nonneg r])

/-- The moments of the parameters `setParameters` computes from `m > 0` and
`s ≥ 0` are `m` and `s`. -/
theorem moments_of_setParameters (m s : ℝ) (hm : 0 < m) (hs : 0 ≤ s) :
    let z := Real.sqrt (Real.log (1 + (s / m) * (s / m)))
    Real.exp (Real.log m - 0.5 * z * z + 0.5 * z * z) = m ∧
    Real.exp (Real.log m - 0.5 * z * z + 0.5 * z * z)
      * Real.sqrt (Real.exp (z * z) - 1) = s := by
  intro z
  have hz : z * z = Real.log (1 + (s / m) * (s / m)) :=
    Real.mul_self_sqrt (log_one_add_sq_nonneg _)
  have h1 : Real.exp (Real.log m - 0.5 * z * z + 0.5 * z * z) = m := by
    rw [sub_add_cancel, Real.exp_log hm]
  refine ⟨h1, ?_⟩
  have hpos : (0 : ℝ) < 1 + (s / m) * (s / m) := by nlinarith [mul_self_nonneg (s / m)]
  rw [h1, hz, Real.exp_log hpos, add_sub_cancel_left, Real.sqrt_mul_self (div_nonneg hs hm.le)]
  field_simp

/-- C2: for every mean `m > 0` and standard deviation `s ≥ 0` the object built
by the `(tag, mean, stdv)` constructor has `zeta = sqrt (ln (1 + (s/m)^2))` and
`lambda = ln m - zeta^2 / 2`, and `getMean` gives back `m`, `getStdv` gives
back `s`. -/
theorem C2_moment_consistency (tag : Int) (m s : ℝ) (hm : 0 < m) (hs : 0 ≤ s) :
    (ofMoments realMath tag m s).1.zeta = Real.sqrt (Real.log (1 + (s / m) ^ 2)) ∧
    (ofMoments realMath tag m s).1.lambda
      = Real.log m - (ofMoments realMath tag m s).1.zeta ^ 2 / 2 ∧
    getMean realMath (ofMoments realMath tag m s).1 = m ∧
    getStdv realMath (ofMoments realMath tag m s).1 = s := by
  rw [ofMoments_of_nonneg tag m s hm.le]
  obtain ⟨h1, h2⟩ := moments_of_setParameters m s hm hs
  refine ⟨by simp only [sq], by simp only; ring, ?_, ?_⟩
  · simpa [getMean, realMath] using h1
  · simpa [getStdv, realMath] using h2

/-- C2 at `mean = 10`, `stdv = 2`: the moments come back as `10` and `2`. -/
theorem C2_moment_consistency_witness :
    (0 : ℝ) < 10 ∧ (0 : ℝ) ≤ 2 ∧
    getMean realMath (ofMoments realMath 1 10 2).1 = 10 ∧
    getStdv realMath (ofMoments realMath 1 10 2).1 = 2 :=
  ⟨by norm_num, by norm_num,
    (C2_moment_consistency 1 10 2 (by norm_num) (by norm_num)).2.2⟩

/-- C3: for every mean `m < 0` and `s ≥ 0` the object built by the
`(tag, mean, stdv)` constructor has `isPositive = false`, holds the `zeta` and
`lambda` that moment matching gives for `|m|` and `s`, and `getMean` gives back
the negative `m`, `getStdv` gives back `s`. -/
theorem C3_negative_mean (tag : Int) (m s : ℝ) (hm : m < 0) (hs : 0 ≤ s) :
    (ofMoments realMath tag m s).1.isPositive = false ∧
    (ofMoments realMath tag m s).1.zeta = Real.sqrt (Real.log (1 + (s / |m|) ^ 2)) ∧
    (ofMoments realMath tag m s).1.lambda
      = Real.log |m| - (ofMoments realMath tag m s).1.zeta ^ 2 / 2 ∧
    (ofMoments realMath tag m s).1.zeta = (ofMoments realMath tag |m| s).1.zeta ∧
    (ofMoments realMath tag m s).1.lambda = (ofMoments realMath tag |m| s).1.lambda ∧
    getMean realMath (ofMoments realMath tag m s).1 = m ∧
    getStdv realMath (ofMoments realMath tag m s).1 = s := by
  rw [ofMoments_of_nonneg tag |m| s (abs_nonneg m), ofMoments_of_neg tag m s hm,
    abs_of_neg hm]
  obtain ⟨h1, h2⟩ := moments_of_setParameters (-m) s (neg_pos.mpr hm) hs
  refine ⟨rfl, by simp only [sq], by simp only; ring, rfl, rfl, ?_, ?_⟩
  · have : getMean realMath
        { tag := tag, startValue := 0,
          lambda := Real.log (-m)
            - 0.5 * Real.sqrt (Real.log (1 + (s / -m) * (s / -m)))
                * Real.sqrt (Real.log (1 + (s / -m) * (s / -m))),
          zeta := Real.sqrt (Real.log (1 + (s / -m) * (s / -m))),
          isPositive := false } = -(-m) := by
      simp only [getMean, realMath, Bool.false_eq_true, if_false]
      rw [h1]
    rw [this, neg_neg]
  · simpa [getStdv, realMath] using h2

/-- C3 at `mean = -10`, `stdv = 2`: `isPositive` is false and `getMean` is
`-10`. -/
theorem C3_negative_mean_witness :
    (-10 : ℝ) < 0 ∧ (0 : ℝ) ≤ 2 ∧
    (ofMoments realMath 1 (-10) 2).1.isPositive = false ∧
    getMean realMath (ofMoments realMath 1 (-10) 2).1 = -10 :=
  ⟨by norm_num, by norm_num,
    (C3_negative_mean 1 (-10) 2 (by norm_num) (by norm_num)).1,
    (C3_negative_mean 1 (-10) 2 (by norm_num) (by norm_num)).2.2.2.2.2.1⟩

end Moments

/-! ## The parameter-vector constructor and the status of `setParameters` -/

section Constructors

open LognormalRV

variable {α : Type} [LinearOrderedField α]

/-- C4: for every two-element vector `[l, z]` the object built by the
parameter-vector constructor has `isPositive = true` exactly when `l ≥ 0`,
holds `lambda = |l|` and `zeta = z`, and `getParameters` returns `(|l|, z)`;
for `[-1.0, 0.3]` it has `isPositive = false` and `lambda = 1.0`. -/
theorem C4_parameter_vector (tag : Int) (l z : α) :
    ((ofParameters tag [l, z]).1.isPositive = true ↔ 0 ≤ l) ∧
    (ofParameters tag [l, z]).1.lambda = |l| ∧
    (ofParameters tag [l, z]).1.zeta = z ∧
    getParameters (ofParameters tag [l, z]).1 = [|l|, z] ∧
    (ofParameters tag [(-1.0 : α), 0.3]).1.isPositive = false ∧
    (ofParameters tag [(-1.0 : α), 0.3]).1.lambda = 1.0 := by
  have hneg : ((-1.0 : α) < 0) := by norm_num
  refine ⟨?_, ?_, ?_, ?_, ?_, ?_⟩
  · by_cases h : l < 0
    · simp [ofParameters, h]
    · simp [ofParameters, h, not_lt.mp h]
  · by_cases h : l < 0
    · simp [ofParameters, h, abs_of_neg h]
    · simp [ofParameters, h, abs_of_nonneg (not_lt.mp h)]
  · by_cases h : l < 0 <;> simp [ofParameters, h]
  · by_cases h : l < 0
    · simp [ofParameters, getParameters, h, abs_of_neg h]
    · simp [ofParameters, getParameters, h, abs_of_nonneg (not_lt.mp h)]
  · simp [ofParameters, hneg]
  · simp [ofParameters, hneg]

/-- C5: for every parameter vector whose length is not 2 the parameter-vector
constructor writes its diagnostic and leaves `lambda = 0`, `zeta = 0`,
`isPositive = true`, so `getParameters` returns `(0, 0)` and `getType` returns
`"LOGNORMAL"`. -/
theorem C5_invalid_parameter_count (tag : Int) (v : List α) (hv : v.length ≠ 2) :
    (ofParameters tag v).2 =
      ["Lognormal RV requires 2 parameters, lambda and zeta, for RV with tag "
        ++ toString tag ++ "\n"] ∧
    (ofParameters tag v).1.lambda = 0 ∧
    (ofParameters tag v).1.zeta = 0 ∧
    (ofParameters tag v).1.isPositive = true ∧
    getParameters (ofParameters tag v).1 = [0, 0] ∧
    getType (ofParameters tag v).1 = "LOGNORMAL" := by
  simp [ofParameters, getParameters, getType, hv]

/-- C5 at the three-element vector `[1, 2, 3]`. -/
theorem C5_invalid_parameter_count_witness :
    [(1 : ℝ), 2, 3].length ≠ 2 ∧
    (ofParameters 1 [(1 : ℝ), 2, 3]).2 =
      ["Lognormal RV requires 2 parameters, lambda and zeta, for RV with tag "
        ++ toString (1 : Int) ++ "\n"] ∧
    (ofParameters 1 [(1 : ℝ), 2, 3]).1.lambda = 0 ∧
    (ofParameters 1 [(1 : ℝ), 2, 3]).1.zeta = 0 ∧
    (ofParameters 1 [(1 : ℝ), 2, 3]).1.isPositive = true ∧
    getParameters (ofParameters 1 [(1 : ℝ), 2, 3]).1 = [0, 0] ∧
    getType (ofParameters 1 [(1 : ℝ), 2, 3]).1 = "LOGNORMAL" :=
  ⟨by decide, C5_invalid_parameter_count 1 [(1 : ℝ), 2, 3] (by decide)⟩

/-- C9 fails as stated: at `mean = 0`, `stdv = 1` the status `setParameters`
returns is not negative, and the `(tag, mean, stdv)` constructor writes nothing
to `opserr`. -/
theorem C9_status_at_zero_mean :
    ¬ ((setParameters realMath
          { tag := 1, startValue := 0, lambda := 0, zeta := 0, isPositive := true }
          0 1).2 < 0) ∧
    (ofMoments realMath 1 0 1).2 = [] := by
  constructor
  · simp [setParameters]
  · simp [ofMoments, setParameters]

/-- C9 as amended: `setParameters` returns the status `0` for every mean and
standard deviation, `mean = 0` and `mean > 0` alike, and the
`(tag, mean, stdv)` constructor never writes its `Error setting parameters`
diagnostic. -/
theorem C9_status_always_success (M : CMath α) (rv : LognormalRV α) (tag : Int)
    (mean stdv : α) :
    (setParameters M rv mean stdv).2 = 0 ∧ (ofMoments M tag mean stdv).2 = [] := by
  simp [ofMoments, setParameters]

end Constructors

/-! ## Density and quantile function -/

section Evaluation

open LognormalRV

/-- C6: `getInverseCDFvalue p` writes its diagnostic exactly when `p < 0` or
`p > 1`; it then returns `0` and passes nothing to the standard-normal helper.
For `p` in `[0, 1]` it writes nothing and the returned value is not `0`.  At
`p = 1.5` the result is `0` with the diagnostic. -/
theorem C6_inverse_cdf_out_of_range (N : NormalRV ℝ) (rv : LognormalRV ℝ) (p : ℝ) :
    ((getInverseCDFvalue realMath N rv p).opserr ≠ [] ↔ (p < 0 ∨ 1 < p)) ∧
    ((p < 0 ∨ 1 < p) →
      getInverseCDFvalue realMath N rv p =
        { value := 0,
          opserr := ["Invalid probability value input to inverse CDF function\n"],
          normalCalls := [] }) ∧
    ((0 ≤ p ∧ p ≤ 1) →
      (getInverseCDFvalue realMath N rv p).opserr = [] ∧
      (getInverseCDFvalue realMath N rv p).value ≠ 0) ∧
    getInverseCDFvalue realMath N rv 1.5 =
      { value := 0,
        opserr := ["Invalid probability value input to inverse CDF function\n"],
        normalCalls := [] } := by
  have hbad : ∀ q : ℝ, (q < 0 ∨ 1 < q) →
      getInverseCDFvalue realMath N rv q =
        { value := 0,
          opserr := ["Invalid probability value input to inverse CDF function\n"],
          normalCalls := [] } := by
    intro q hq
    have hq2 : q > 1 ∨ q < 0 := hq.symm
    simp only [getInverseCDFvalue, if_pos hq2]
  have hgood : (0 ≤ p ∧ p ≤ 1) →
      (getInverseCDFvalue realMath N rv p).opserr = [] ∧
      (getInverseCDFvalue realMath N rv p).value ≠ 0 := by
    rintro ⟨h0, h1⟩
    have hq2 : ¬ (p > 1 ∨ p < 0) := by
      rintro (h | h)
      · exact absurd h (not_lt.mpr h1)
      · exact absurd h (not_lt.mpr h0)
    cases hpos : rv.isPositive
    · simp only [getInverseCDFvalue, if_neg hq2, hpos, Bool.false_eq_true, if_false, realMath]
      exact ⟨trivial, neg_ne_zero.mpr (Real.exp_pos _).ne.symm⟩
    · simp only [getInverseCDFvalue, if_neg hq2, hpos, if_true, realMath]
      exact ⟨trivial, (Real.exp_pos _).ne.symm⟩
  refine ⟨?_, hbad p, hgood, hbad _ (Or.inr (by norm_num))⟩
  constructor
  · intro h
    by_contra hc
    push_neg at hc
    exact h (hgood ⟨hc.1, hc.2⟩).1
  · intro h
    rw [hbad p h]
    simp

/-- C8: for `zeta > 0` and every real `x`, `getPDFvalue x ≥ 0`; it is `0` for
`x ≤ 0` on a positive instance and for `x ≥ 0` on a negative instance. -/
theorem C8_pdf_nonneg (rv : LognormalRV ℝ) (hz : 0 < rv.zeta) (x : ℝ) :
    0 ≤ getPDFvalue realMath rv x ∧
    (rv.isPositive = true → x ≤ 0 → getPDFvalue realMath rv x = 0) ∧
    (rv.isPositive = false → 0 ≤ x → getPDFvalue realMath rv x = 0) := by
  have key : ∀ y : ℝ, 0 ≤ (if 0 < y then
      1 / (Real.sqrt (2 * Real.pi) * rv.zeta * y)
        * Real.exp (-0.5 * ((Real.log y - rv.lambda) / rv.zeta) ^ (2 : ℝ))
      else 0) := by
    intro y
    split_ifs with hy
    · have h2 : 0 < Real.sqrt (2 * Real.pi) := Real.sqrt_pos.mpr (by positivity)
      positivity
    · exact le_refl 0
  refine ⟨?_, ?_, ?_⟩
  · cases hpos : rv.isPositive
    · simpa [getPDFvalue, realMath, hpos] using key (-x)
    · simpa [getPDFvalue, realMath, hpos] using key x
  · intro hpos hx
    simp [getPDFvalue, hpos, not_lt.mpr hx]
  · intro hpos hx
    simp [getPDFvalue, hpos, hx]

/-- C8 at the positive instance `lambda = 0`, `zeta = 1` and `x = 1`. -/
theorem C8_pdf_nonneg_witness :
    (0 : ℝ) < (1 : ℝ) ∧
    0 ≤ getPDFvalue realMath
      { tag := 1, startValue := 0, lambda := 0, zeta := 1, isPositive := true } 1 :=
  ⟨one_pos,
    (C8_pdf_nonneg { tag := 1, startValue := 0, lambda := 0, zeta := 1, isPositive := true }
      one_pos 1).1⟩

/-- Bounds on `ln 1.04` from the first three terms of the logarithm series. -/
theorem log_104_bounds : (0.03921 : ℝ) < Real.log 1.04 ∧ Real.log 1.04 < 0.039225 := by
  have habs : |(-(1 / 25) : ℝ)| = 1 / 25 := by
    rw [abs_neg, abs_of_pos]
    norm_num
  have h := Real.abs_log_sub_add_sum_range_le (x := (-(1 / 25) : ℝ))
    (by rw [habs]; norm_num) 3
  have e : (1 : ℝ) - (-(1 / 25)) = 1.04 := by norm_num
  rw [e, habs, abs_le] at h
  simp only [Finset.sum_range_succ, Finset.sum_range_zero] at h
  obtain ⟨h1, h2⟩ := h
  constructor
  · norm_num at h1 ⊢
    linarith
  · norm_num at h2 ⊢
    linarith

/-- Bounds on `ln 100 = 6 ln 2 - 2 ln (4/5)`. -/
theorem log_100_bounds : (4.6051 : ℝ) < Real.log 100 ∧ Real.log 100 < 4.6053 := by
  have habs : |(1 / 5 : ℝ)| = 1 / 5 := abs_of_pos (by norm_num)
  have h := Real.abs_log_sub_add_sum_range_le (x := (1 / 5 : ℝ)) (by rw [habs]; norm_num) 6
  have e : (1 : ℝ) - 1 / 5 = 4 / 5 := by norm_num
  rw [e, habs, abs_le] at h
  simp only [Finset.sum_range_succ, Finset.sum_range_zero] at h
  have h100 : Real.log 100 = 6 * Real.log 2 - 2 * Real.log (4 / 5) := by
    have : (100 : ℝ) = 2 ^ 6 / (4 / 5) ^ 2 := by norm_num
    rw [this, Real.log_div (by norm_num) (by norm_num), Real.log_pow, Real.log_pow]
    push_cast
    ring
  have l1 := Real.log_two_gt_d9
  have l2 := Real.log_two_lt_d9
  rw [h100]
  obtain ⟨h1, h2⟩ := h
  constructor
  · norm_num at h2 l1 ⊢
    linarith
  · norm_num at h1 l2 ⊢
    linarith

/-- Bounds on `sqrt 1.04`. -/
theorem sqrt_104_bounds : (1.0197 : ℝ) < Real.sqrt 1.04 ∧ Real.sqrt 1.04 < 1.01985 := by
  constructor
  · rw [Real.lt_sqrt (by norm_num)]
    norm_num
  · rw [Real.sqrt_lt' (by norm_num)]
    norm_num

/-- The quantile at a probability whose standard-normal quantile is `0`, for
the parameters `setParameters` computes from `m > 0`. -/
theorem median_of_setParameters (m s : ℝ) (hm : 0 < m) :
    Real.exp (0 * Real.sqrt (Real.log (1 + (s / m) * (s / m)))
        + (Real.log m
            - 0.5 * Real.sqrt (Real.log (1 + (s / m) * (s / m)))
                * Real.sqrt (Real.log (1 + (s / m) * (s / m)))))
      = m / Real.sqrt (1 + (s / m) ^ 2) := by
  have hpos : (0 : ℝ) < 1 + (s / m) * (s / m) := by nlinarith [mul_self_nonneg (s / m)]
  have hz := Real.mul_self_sqrt (log_one_add_sq_nonneg (s / m))
  rw [zero_mul, zero_add, mul_assoc, hz, Real.exp_sub, Real.exp_log hm, sq]
  have : (0.5 : ℝ) * Real.log (1 + (s / m) * (s / m))
      = Real.log (1 + (s / m) * (s / m)) / 2 := by ring
  rw [this, Real.exp_half, Real.exp_log hpos]

/-- C10: when the standard-normal quantile at `0.5` is `0`, every instance
built from moments `m > 0`, `s ≥ 0` has
`getInverseCDFvalue 0.5 = exp lambda = m / sqrt (1 + (s/m)^2)`; for
`mean = 100`, `stdv = 20` this is `zeta = sqrt (ln 1.04)` (within `0.0001` of
`0.1980`), `lambda = ln 100 - ln 1.04 / 2` (within `0.001` of `4.585`) and
`getInverseCDFvalue 0.5 = 100 / sqrt 1.04` (within `0.01` of `98.06`). -/
theorem C10_median (N : NormalRV ℝ) (hN : N.getInverseCDFvalue 0.5 = 0) :
    (∀ (tag : Int) (m s : ℝ), 0 < m → 0 ≤ s →
      (getInverseCDFvalue realMath N (ofMoments realMath tag m s).1 0.5).value
        = Real.exp (ofMoments realMath tag m s).1.lambda ∧
      (getInverseCDFvalue realMath N (ofMoments realMath tag m s).1 0.5).value
        = m / Real.sqrt (1 + (s / m) ^ 2)) ∧
    (ofMoments realMath 1 100 20).1.zeta = Real.sqrt (Real.log 1.04) ∧
    |(ofMoments realMath 1 100 20).1.zeta - 0.1980| < 0.0001 ∧
    (ofMoments realMath 1 100 20).1.lambda = Real.log 100 - Real.log 1.04 / 2 ∧
    |(ofMoments realMath 1 100 20).1.lambda - 4.585| < 0.001 ∧
    (getInverseCDFvalue realMath N (ofMoments realMath 1 100 20).1 0.5).value
      = 100 / Real.sqrt 1.04 ∧
    |(getInverseCDFvalue realMath N (ofMoments realMath 1 100 20).1 0.5).value - 98.06|
      < 0.01 := by
  have hp : ¬ ((0.5 : ℝ) > 1 ∨ (0.5 : ℝ) < 0) := by norm_num
  have hval : ∀ (tag : Int) (m s : ℝ), 0 < m →
      (getInverseCDFvalue realMath N (ofMoments realMath tag m s).1 0.5).value
        = m / Real.sqrt (1 + (s / m) ^ 2) := by
    intro tag m s hm
    rw [ofMoments_of_nonneg tag m s hm.le]
    simp only [getInverseCDFvalue, if_neg hp, if_true, hN, realMath]
    exact median_of_setParameters m s hm
  have hexp : ∀ (tag : Int) (m s : ℝ), 0 < m →
      (getInverseCDFvalue realMath N (ofMoments realMath tag m s).1 0.5).value
        = Real.exp (ofMoments realMath tag m s).1.lambda := by
    intro tag m s hm
    rw [ofMoments_of_nonneg tag m s hm.le]
    simp only [getInverseCDFvalue, if_neg hp, if_true, hN, realMath, zero_mul, zero_add]
  have hr : (1 : ℝ) + (20 / 100) * (20 / 100) = 1.04 := by norm_num
  have hr2 : (1 : ℝ) + (20 / 100) ^ 2 = 1.04 := by norm_num
  have hL := log_104_bounds
  have hC := log_100_bounds
  have hS := sqrt_104_bounds
  have hsq : Real.sqrt (Real.log 1.04) * Real.sqrt (Real.log 1.04) = Real.log 1.04 :=
    Real.mul_self_sqrt (by linarith [hL.1])
  have hzeta : (ofMoments realMath 1 100 20).1.zeta = Real.sqrt (Real.log 1.04) := by
    rw [ofMoments_of_nonneg 1 100 20 (by norm_num), hr]
  have hlambda : (ofMoments realMath 1 100 20).1.lambda
      = Real.log 100 - Real.log 1.04 / 2 := by
    rw [ofMoments_of_nonneg 1 100 20 (by norm_num), hr]
    simp only
    rw [mul_assoc, hsq]
    ring
  have hinv : (getInverseCDFvalue realMath N (ofMoments realMath 1 100 20).1 0.5).value
      = 100 / Real.sqrt 1.04 := by
    rw [hval 1 100 20 (by norm_num), hr2]
  refine ⟨fun tag m s hm _ => ⟨hexp tag m s hm, hval tag m s hm⟩, hzeta, ?_, hlambda, ?_,
    hinv, ?_⟩
  · rw [hzeta, abs_lt]
    constructor
    · have : (0.1979 : ℝ) < Real.sqrt (Real.log 1.04) := by
        rw [Real.lt_sqrt (by norm_num)]
        norm_num
        linarith [hL.1]
      linarith
    · have : Real.sqrt (Real.log 1.04) < 0.1981 := by
        rw [Real.sqrt_lt' (by norm_num)]
        norm_num
        linarith [hL.2]
      linarith
  · rw [hlambda, abs_lt]
    constructor <;> linarith [hL.1, hL.2, hC.1, hC.2]
  · rw [hinv, abs_lt]
    have hpos : (0 : ℝ) < Real.sqrt 1.04 := by linarith [hS.1]
    constructor
    · rw [lt_sub_iff_add_lt, lt_div_iff₀ hpos]
      linarith [hS.2]
    · rw [sub_lt_iff_lt_add, div_lt_iff₀ hpos]
      linarith [hS.1]

/-- C10 with the helper `logisticNormal`, whose quantile at `0.5` is `0`. -/
theorem C10_median_witness :
    logisticNormal.getInverseCDFvalue 0.5 = 0 ∧
    (getInverseCDFvalue realMath logisticNormal (ofMoments realMath 1 100 20).1 0.5).value
      = 100 / Real.sqrt 1.04 :=
  have h : logisticNormal.getInverseCDFvalue 0.5 = 0 := by
    simp only [logisticNormal]
    norm_num
  ⟨h, (C10_median logisticNormal h).2.2.2.2.2.1⟩

end Evaluation

/-! ## Distribution function -/

section Distribution

open LognormalRV

/-- The helper `logisticNormal` satisfies `Phi (PhiInv q) = q` on `(0, 1)`. -/
theorem logisticNormal_cdf_inverse (q : ℝ) (h0 : 0 < q) (h1 : q < 1) :
    logisticNormal.getCDFvalue (logisticNormal.getInverseCDFvalue q) = q := by
  have h1q : 0 < 1 - q := sub_pos.mpr h1
  simp only [logisticNormal]
  rw [Real.exp_neg, Real.exp_log (div_pos h0 h1q)]
  field_simp

/-- The distribution function of the helper `logisticNormal` is strictly
increasing. -/
theorem logisticNormal_strictMono : StrictMono logisticNormal.getCDFvalue := by
  intro a b hab
  simp only [logisticNormal]
  have hb : 0 < 1 + Real.exp (-b) := by positivity
  exact one_div_lt_one_div_of_lt hb
    (add_lt_add_left (Real.exp_lt_exp.mpr (neg_lt_neg hab)) 1)

/-- The distribution function of a positive instance at a point `x > 0`. -/
theorem getCDFvalue_of_positive (N : NormalRV ℝ) (rv : LognormalRV ℝ)
    (hpos : rv.isPositive = true) (x : ℝ) (hx : 0 < x) :
    getCDFvalue realMath N rv x = N.getCDFvalue ((Real.log x - rv.lambda) / rv.zeta) := by
  simp [getCDFvalue, realMath, hpos, hx]

/-- The value the code returns as distribution function of a negative instance
at a point `x < 0`: the two complements cancel. -/
theorem getCDFvalue_of_negative (N : NormalRV ℝ) (rv : LognormalRV ℝ)
    (hpos : rv.isPositive = false) (x : ℝ) (hx : x < 0) :
    getCDFvalue realMath N rv x
      = N.getCDFvalue ((Real.log |x| - rv.lambda) / rv.zeta) := by
  simp [getCDFvalue, realMath, hpos, hx]

/-- On a positive instance with `zeta > 0` the distribution function undoes the
quantile function at every `p` in `[0, 1]` at which the helper does. -/
theorem cdf_inverse_of_positive (N : NormalRV ℝ) (rv : LognormalRV ℝ)
    (hpos : rv.isPositive = true) (hz : 0 < rv.zeta) (p : ℝ) (h0 : 0 ≤ p) (h1 : p ≤ 1)
    (hN : N.getCDFvalue (N.getInverseCDFvalue p) = p) :
    getCDFvalue realMath N rv (getInverseCDFvalue realMath N rv p).value = p := by
  have hq : ¬ (p > 1 ∨ p < 0) := by
    rintro (h | h)
    · exact absurd h (not_lt.mpr h1)
    · exact absurd h (not_lt.mpr h0)
  have hv : (getInverseCDFvalue realMath N rv p).value
      = Real.exp (N.getInverseCDFvalue p * rv.zeta + rv.lambda) := by
    simp only [getInverseCDFvalue, if_neg hq, hpos, if_true, realMath]
  rw [hv, getCDFvalue_of_positive N rv hpos _ (Real.exp_pos _), Real.log_exp,
    add_sub_cancel_right, mul_div_assoc, div_self hz.ne.symm, mul_one, hN]

/-- On a negative instance with `zeta > 0` the value the code returns as
distribution function at the quantile of `p` is `1 - p`, at every `p` in
`[0, 1]` at which the helper undoes its quantile at `1 - p`. -/
theorem cdf_inverse_of_negative (N : NormalRV ℝ) (rv : LognormalRV ℝ)
    (hpos : rv.isPositive = false) (hz : 0 < rv.zeta) (p : ℝ) (h0 : 0 ≤ p) (h1 : p ≤ 1)
    (hN : N.getCDFvalue (N.getInverseCDFvalue (1 - p)) = 1 - p) :
    getCDFvalue realMath N rv (getInverseCDFvalue realMath N rv p).value = 1 - p := by
  have hq : ¬ (p > 1 ∨ p < 0) := by
    rintro (h | h)
    · exact absurd h (not_lt.mpr h1)
    · exact absurd h (not_lt.mpr h0)
  have hv : (getInverseCDFvalue realMath N rv p).value
      = -Real.exp (N.getInverseCDFvalue (1 - p) * rv.zeta + rv.lambda) := by
    simp only [getInverseCDFvalue, if_neg hq, hpos, Bool.false_eq_true, if_false, realMath]
  rw [hv, getCDFvalue_of_negative N rv hpos _ (neg_lt_zero.mpr (Real.exp_pos _)), abs_neg,
    abs_of_pos (Real.exp_pos _), Real.log_exp, add_sub_cancel_right, mul_div_assoc,
    div_self hz.ne.symm, mul_one, hN]

/-- On a positive instance with `zeta > 0` the distribution function is
monotone on `(0, +∞)` when the helper's is monotone. -/
theorem cdf_monotone_of_positive (N : NormalRV ℝ) (hN : Monotone N.getCDFvalue)
    (rv : LognormalRV ℝ) (hpos : rv.isPositive = true) (hz : 0 < rv.zeta)
    (x1 x2 : ℝ) (h1 : 0 < x1) (h12 : x1 ≤ x2) :
    getCDFvalue realMath N rv x1 ≤ getCDFvalue realMath N rv x2 := by
  rw [getCDFvalue_of_positive N rv hpos x1 h1,
    getCDFvalue_of_positive N rv hpos x2 (lt_of_lt_of_le h1 h12)]
  apply hN
  apply div_le_div_of_nonneg_right _ hz.le
  exact sub_le_sub_right (Real.log_le_log h1 h12) _

/-- On a negative instance with `zeta > 0` the value the code returns as
distribution function does not increase along `(-∞, 0)` when the helper's
distribution function is monotone. -/
theorem cdf_antitone_of_negative (N : NormalRV ℝ) (hN : Monotone N.getCDFvalue)
    (rv : LognormalRV ℝ) (hpos : rv.isPositive = false) (hz : 0 < rv.zeta)
    (x1 x2 : ℝ) (h12 : x1 ≤ x2) (h2 : x2 < 0) :
    getCDFvalue realMath N rv x2 ≤ getCDFvalue realMath N rv x1 := by
  rw [getCDFvalue_of_negative N rv hpos x2 h2,
    getCDFvalue_of_negative N rv hpos x1 (lt_of_le_of_lt h12 h2)]
  apply hN
  apply div_le_div_of_nonneg_right _ hz.le
  apply sub_le_sub_right
  rw [abs_of_neg h2, abs_of_neg (lt_of_le_of_lt h12 h2)]
  exact Real.log_le_log (neg_pos.mpr h2) (neg_le_neg h12)

/-- The negative instance built from the parameter vector `[-1, 1]`. -/
theorem ofParameters_neg_one_one :
    (ofParameters 1 [(-1 : ℝ), 1]).1 =
      { tag := 1, startValue := 0, lambda := 1, zeta := 1, isPositive := false } := by
  simp [ofParameters]

/-- The scale parameter of the instance built from `mean = -10`, `stdv = 2` is
positive. -/
theorem zeta_pos_of_moments_neg_ten_two : 0 < (ofMoments realMath 1 (-10) 2).1.zeta := by
  rw [ofMoments_of_neg 1 (-10) 2 (by norm_num)]
  simp only
  apply Real.sqrt_pos.mpr
  apply Real.log_pos
  norm_num

/-- C1 on two negative instances, the one built from the parameter vector
`[-1, 1]` and the one built from `mean = -10`, `stdv = 2`, both with
`zeta > 0`: for every helper with `Phi (PhiInv q) = q` on `(0, 1)`, the code
gives `getCDFvalue (getInverseCDFvalue (1/4)) = 3/4`, not `1/4`. -/
theorem C1_round_trip_on_negative_instances (N : NormalRV ℝ)
    (hN : ∀ q : ℝ, 0 < q → q < 1 → N.getCDFvalue (N.getInverseCDFvalue q) = q) :
    (ofParameters 1 [(-1 : ℝ), 1]).1.isPositive = false ∧
    0 < (ofParameters 1 [(-1 : ℝ), 1]).1.zeta ∧
    getCDFvalue realMath N (ofParameters 1 [(-1 : ℝ), 1]).1
      (getInverseCDFvalue realMath N (ofParameters 1 [(-1 : ℝ), 1]).1 (1 / 4)).value
      = 3 / 4 ∧
    (ofMoments realMath 1 (-10) 2).1.isPositive = false ∧
    0 < (ofMoments realMath 1 (-10) 2).1.zeta ∧
    getCDFvalue realMath N (ofMoments realMath 1 (-10) 2).1
      (getInverseCDFvalue realMath N (ofMoments realMath 1 (-10) 2).1 (1 / 4)).value
      = 3 / 4 := by
  have h34 : N.getCDFvalue (N.getInverseCDFvalue (1 - 1 / 4)) = 1 - 1 / 4 :=
    hN _ (by norm_num) (by norm_num)
  have e : (1 : ℝ) - 1 / 4 = 3 / 4 := by norm_num
  have hp1 : (ofParameters 1 [(-1 : ℝ), 1]).1.isPositive = false := by
    rw [ofParameters_neg_one_one]
  have hz1 : 0 < (ofParameters 1 [(-1 : ℝ), 1]).1.zeta := by
    rw [ofParameters_neg_one_one]
    exact one_pos
  have hp2 : (ofMoments realMath 1 (-10) 2).1.isPositive = false := by
    rw [ofMoments_of_neg 1 (-10) 2 (by norm_num)]
  have hz2 := zeta_pos_of_moments_neg_ten_two
  refine ⟨hp1, hz1, ?_, hp2, hz2, ?_⟩
  · rw [cdf_inverse_of_negative N _ hp1 hz1 (1 / 4) (by norm_num) (by norm_num) h34, e]
  · rw [cdf_inverse_of_negative N _ hp2 hz2 (1 / 4) (by norm_num) (by norm_num) h34, e]

/-- C1 on the negative instance built from `[-1, 1]`, with the helper
`logisticNormal`. -/
theorem C1_round_trip_on_negative_instances_witness :
    (∀ q : ℝ, 0 < q → q < 1 →
      logisticNormal.getCDFvalue (logisticNormal.getInverseCDFvalue q) = q) ∧
    getCDFvalue realMath logisticNormal (ofParameters 1 [(-1 : ℝ), 1]).1
      (getInverseCDFvalue realMath logisticNormal
        (ofParameters 1 [(-1 : ℝ), 1]).1 (1 / 4)).value = 3 / 4 :=
  ⟨logisticNormal_cdf_inverse,
    (C1_round_trip_on_negative_instances logisticNormal logisticNormal_cdf_inverse).2.2.1⟩

/-- C7 on the negative instance built from the parameter vector `[-1, 1]`
(`zeta = 1 > 0`): for every helper whose distribution function is strictly
increasing, `-2 ≤ -1` are both in the support `(-∞, 0)` and the code gives
`getCDFvalue (-1) < getCDFvalue (-2)`. -/
theorem C7_cdf_decreases_on_negative_instance (N : NormalRV ℝ)
    (hN : StrictMono N.getCDFvalue) :
    (ofParameters 1 [(-1 : ℝ), 1]).1.isPositive = false ∧
    0 < (ofParameters 1 [(-1 : ℝ), 1]).1.zeta ∧
    (-2 : ℝ) ≤ -1 ∧ (-1 : ℝ) < 0 ∧
    getCDFvalue realMath N (ofParameters 1 [(-1 : ℝ), 1]).1 (-1)
      < getCDFvalue realMath N (ofParameters 1 [(-1 : ℝ), 1]).1 (-2) := by
  have hp1 : (ofParameters 1 [(-1 : ℝ), 1]).1.isPositive = false := by
    rw [ofParameters_neg_one_one]
  have hz1 : 0 < (ofParameters 1 [(-1 : ℝ), 1]).1.zeta := by
    rw [ofParameters_neg_one_one]
    exact one_pos
  refine ⟨hp1, hz1, by norm_num, by norm_num, ?_⟩
  rw [getCDFvalue_of_negative N _ hp1 (-1) (by norm_num),
    getCDFvalue_of_negative N _ hp1 (-2) (by norm_num)]
  apply hN
  rw [ofParameters_neg_one_one]
  simp only [div_one, abs_neg, abs_one, Real.log_one]
  have h2 : (0 : ℝ) < Real.log |2| := by
    rw [abs_of_pos (by norm_num : (0 : ℝ) < 2)]
    exact Real.log_pos (by norm_num)
  linarith

/-- C7 on the negative instance built from `[-1, 1]`, with the helper
`logisticNormal`. -/
theorem C7_cdf_decreases_on_negative_instance_witness :
    StrictMono logisticNormal.getCDFvalue ∧
    getCDFvalue realMath logisticNormal (ofParameters 1 [(-1 : ℝ), 1]).1 (-1)
      < getCDFvalue realMath logisticNormal (ofParameters 1 [(-1 : ℝ), 1]).1 (-2) :=
  ⟨logisticNormal_strictMono,
    (C7_cdf_decreases_on_negative_instance logisticNormal logisticNormal_strictMono).2.2.2.2⟩

end Distribution

/-! ## Moments, sign and the two forms of the distribution function -/

section Sign

open LognormalRV

/-- C12: for all real `lambda` and `zeta`,
`getStdv = exp (lambda + zeta^2/2) * sqrt (exp (zeta^2) - 1) ≥ 0`; an instance
and the one that differs from it only in `isPositive` have the same `getStdv`
and `getMean` values that are negatives of each other, and `getMean > 0`
exactly when `isPositive`. -/
theorem C12_spread_sign_independent (rv : LognormalRV ℝ) :
    getStdv realMath rv
      = Real.exp (rv.lambda + rv.zeta ^ 2 / 2) * Real.sqrt (Real.exp (rv.zeta ^ 2) - 1) ∧
    0 ≤ getStdv realMath rv ∧
    getStdv realMath { rv with isPositive := !rv.isPositive } = getStdv realMath rv ∧
    getMean realMath { rv with isPositive := !rv.isPositive } = -getMean realMath rv ∧
    (0 < getMean realMath rv ↔ rv.isPositive = true) := by
  have e : rv.lambda + 0.5 * rv.zeta * rv.zeta = rv.lambda + rv.zeta ^ 2 / 2 := by ring
  refine ⟨?_, ?_, rfl, ?_, ?_⟩
  · simp only [getStdv, realMath, e, sq]
  · simp only [getStdv, realMath]
    exact mul_nonneg (Real.exp_pos _).le (Real.sqrt_nonneg _)
  · cases hpos : rv.isPositive <;> simp [getMean, hpos]
  · cases hpos : rv.isPositive
    · simp only [getMean, realMath, hpos, Bool.false_eq_true, if_false, iff_false, not_lt]
      exact neg_nonpos.mpr (Real.exp_pos _).le
    · simp only [getMean, realMath, hpos, if_true, iff_true]
      exact Real.exp_pos _

/-- C13: on a negative instance `getCDFvalue x` is the complement of the branch
value (`1 - Phi ((ln|x| - lambda)/zeta)` for `x < 0`, else `1`); it equals
`1 -` the value of the commented-out single-flip body, that is
`Phi ((ln|x| - lambda)/zeta)` for `x < 0` and `0` for `x ≥ 0` (where the
single-flip body gives `1`).  On a positive instance the two bodies agree. -/
theorem C13_double_inversion (N : NormalRV ℝ) (rv : LognormalRV ℝ) (x : ℝ) :
    (rv.isPositive = false →
      getCDFvalue realMath N rv x
        = 1 - (if x < 0 then 1 - N.getCDFvalue ((Real.log |x| - rv.lambda) / rv.zeta)
               else 1)) ∧
    (rv.isPositive = false →
      getCDFvalue realMath N rv x = 1 - getCDFvalueSingleFlip realMath N rv x) ∧
    (rv.isPositive = false → x < 0 →
      getCDFvalue realMath N rv x
        = N.getCDFvalue ((Real.log |x| - rv.lambda) / rv.zeta)) ∧
    (rv.isPositive = false → 0 ≤ x →
      getCDFvalue realMath N rv x = 0 ∧ getCDFvalueSingleFlip realMath N rv x = 1) ∧
    (rv.isPositive = true →
      getCDFvalue realMath N rv x = getCDFvalueSingleFlip realMath N rv x) := by
  refine ⟨?_, ?_, ?_, ?_, ?_⟩
  · intro hpos
    simp [getCDFvalue, realMath, hpos]
  · intro hpos
    by_cases hx : x < 0
    · simp [getCDFvalue, getCDFvalueSingleFlip, realMath, hpos, hx, abs_of_neg hx]
    · simp [getCDFvalue, getCDFvalueSingleFlip, realMath, hpos, hx]
  · intro hpos hx
    exact getCDFvalue_of_negative N rv hpos x hx
  · intro hpos hx
    simp [getCDFvalue, getCDFvalueSingleFlip, realMath, hpos, not_lt.mpr hx]
  · intro hpos
    simp [getCDFvalue, getCDFvalueSingleFlip, hpos]

end Sign

/-! ## Distribution function and quantile function together -/

section Inverse

open LognormalRV

/-- The distribution function of the helper `logisticNormal` takes its values
in `(0, 1)`. -/
theorem logisticNormal_range (t : ℝ) :
    0 < logisticNormal.getCDFvalue t ∧ logisticNormal.getCDFvalue t < 1 := by
  simp only [logisticNormal]
  have h : 0 < Real.exp (-t) := Real.exp_pos _
  constructor
  · positivity
  · rw [div_lt_one (by positivity)]
    linarith

/-- The helper `logisticNormal` satisfies `PhiInv (Phi t) = t`. -/
theorem logisticNormal_inverse_cdf (t : ℝ) :
    logisticNormal.getInverseCDFvalue (logisticNormal.getCDFvalue t) = t := by
  simp only [logisticNormal]
  have h : 0 < Real.exp (-t) := Real.exp_pos _
  have e : 1 / (1 + Real.exp (-t)) / (1 - 1 / (1 + Real.exp (-t))) = Real.exp t := by
    rw [Real.exp_neg] at *
    have ht : 0 < Real.exp t := Real.exp_pos t
    field_simp
  rw [e, Real.log_exp]

/-- On a positive instance with `zeta > 0` the quantile function undoes the
distribution function at every `x > 0` whose distribution value lies in
`[0, 1]` and is undone by the helper. -/
theorem inverse_cdf_of_positive (N : NormalRV ℝ) (rv : LognormalRV ℝ)
    (hpos : rv.isPositive = true) (hz : 0 < rv.zeta) (x : ℝ) (hx : 0 < x)
    (h0 : 0 ≤ N.getCDFvalue ((Real.log x - rv.lambda) / rv.zeta))
    (h1 : N.getCDFvalue ((Real.log x - rv.lambda) / rv.zeta) ≤ 1)
    (hN : N.getInverseCDFvalue (N.getCDFvalue ((Real.log x - rv.lambda) / rv.zeta))
      = (Real.log x - rv.lambda) / rv.zeta) :
    getInverseCDFvalue realMath N rv (getCDFvalue realMath N rv x)
      = { value := x, opserr := [], normalCalls := [getCDFvalue realMath N rv x] } := by
  rw [getCDFvalue_of_positive N rv hpos x hx]
  have hq : ¬ (N.getCDFvalue ((Real.log x - rv.lambda) / rv.zeta) > 1
      ∨ N.getCDFvalue ((Real.log x - rv.lambda) / rv.zeta) < 0) := by
    rintro (h | h)
    · exact absurd h (not_lt.mpr h1)
    · exact absurd h (not_lt.mpr h0)
  simp only [getInverseCDFvalue, if_neg hq, hpos, if_true, realMath, hN]
  rw [div_mul_cancel₀ _ hz.ne.symm, sub_add_cancel, Real.exp_log hx]

/-- C15: on a positive instance with `zeta > 0`, for a helper whose
distribution function has its values in `(0, 1)` and is inverse to its
quantile function, `getCDFvalue (getInverseCDFvalue p) = p` for every `p` in
`(0, 1)` and `getInverseCDFvalue (getCDFvalue x) = x`, without a diagnostic,
for every `x > 0`. -/
theorem C15_positive_invertible (N : NormalRV ℝ)
    (hrange : ∀ t : ℝ, 0 < N.getCDFvalue t ∧ N.getCDFvalue t < 1)
    (hleft : ∀ q : ℝ, 0 < q → q < 1 → N.getCDFvalue (N.getInverseCDFvalue q) = q)
    (hright : ∀ t : ℝ, N.getInverseCDFvalue (N.getCDFvalue t) = t)
    (rv : LognormalRV ℝ) (hpos : rv.isPositive = true) (hz : 0 < rv.zeta) :
    (∀ p : ℝ, 0 < p → p < 1 →
      getCDFvalue realMath N rv (getInverseCDFvalue realMath N rv p).value = p) ∧
    (∀ x : ℝ, 0 < x →
      (getInverseCDFvalue realMath N rv (getCDFvalue realMath N rv x)).value = x ∧
      (getInverseCDFvalue realMath N rv (getCDFvalue realMath N rv x)).opserr = []) := by
  constructor
  · intro p h0 h1
    exact cdf_inverse_of_positive N rv hpos hz p h0.le h1.le (hleft p h0 h1)
  · intro x hx
    rw [inverse_cdf_of_positive N rv hpos hz x hx (hrange _).1.le (hrange _).2.le (hright _)]
    exact ⟨rfl, rfl⟩

/-- C15 with the helper `logisticNormal` on the positive instance `lambda = 0`,
`zeta = 1`, at `p = 1/4` and `x = 2`. -/
theorem C15_positive_invertible_witness :
    (0 : ℝ) < 1 ∧
    getCDFvalue realMath logisticNormal
        { tag := 1, startValue := 0, lambda := 0, zeta := 1, isPositive := true }
        (getInverseCDFvalue realMath logisticNormal
          { tag := 1, startValue := 0, lambda := 0, zeta := 1, isPositive := true }
          (1 / 4)).value = 1 / 4 ∧
    (getInverseCDFvalue realMath logisticNormal
        { tag := 1, startValue := 0, lambda := 0, zeta := 1, isPositive := true }
        (getCDFvalue realMath logisticNormal
          { tag := 1, startValue := 0, lambda := 0, zeta := 1, isPositive := true }
          2)).value = 2 :=
  ⟨one_pos,
    (C15_positive_invertible logisticNormal logisticNormal_range logisticNormal_cdf_inverse
      logisticNormal_inverse_cdf
      { tag := 1, startValue := 0, lambda := 0, zeta := 1, isPositive := true } rfl
      one_pos).1 (1 / 4) (by norm_num) (by norm_num),
    ((C15_positive_invertible logisticNormal logisticNormal_range logisticNormal_cdf_inverse
      logisticNormal_inverse_cdf
      { tag := 1, startValue := 0, lambda := 0, zeta := 1, isPositive := true } rfl
      one_pos).2 2 (by norm_num)).1⟩

/-- C16: on a negative instance with `zeta > 0`, for a helper with
`Phi (PhiInv q) = q` on `(0, 1)`, `getCDFvalue (getInverseCDFvalue p) = 1 - p`
for every `p` in `(0, 1)`. -/
theorem C16_negative_complement (N : NormalRV ℝ)
    (hN : ∀ q : ℝ, 0 < q → q < 1 → N.getCDFvalue (N.getInverseCDFvalue q) = q)
    (rv : LognormalRV ℝ) (hpos : rv.isPositive = false) (hz : 0 < rv.zeta)
    (p : ℝ) (h0 : 0 < p) (h1 : p < 1) :
    getCDFvalue realMath N rv (getInverseCDFvalue realMath N rv p).value = 1 - p :=
  cdf_inverse_of_negative N rv hpos hz p h0.le h1.le
    (hN (1 - p) (sub_pos.mpr h1) (by linarith))

/-- C16 with the helper `logisticNormal` on the negative instance `lambda = 0`,
`zeta = 2`, at `p = 1/3`. -/
theorem C16_negative_complement_witness :
    (0 : ℝ) < 2 ∧ (0 : ℝ) < 1 / 3 ∧ (1 / 3 : ℝ) < 1 ∧
    getCDFvalue realMath logisticNormal
        { tag := 2, startValue := 0, lambda := 0, zeta := 2, isPositive := false }
        (getInverseCDFvalue realMath logisticNormal
          { tag := 2, startValue := 0, lambda := 0, zeta := 2, isPositive := false }
          (1 / 3)).value = 1 - 1 / 3 :=
  ⟨by norm_num, by norm_num, by norm_num,
    C16_negative_complement logisticNormal logisticNormal_cdf_inverse
      { tag := 2, startValue := 0, lambda := 0, zeta := 2, isPositive := false } rfl
      (by norm_num) (1 / 3) (by norm_num) (by norm_num)⟩

/-- C17: for every instance (any `lambda` and `zeta`, the degenerate state
included) and every `p` in `[0, 1]`, `getInverseCDFvalue p > 0` on a positive
instance and `< 0` on a negative one, and the quantile of the negative instance
at `p` is the negation of the quantile of the positive instance with the same
`lambda`, `zeta` at `1 - p`. -/
theorem C17_quantiles_in_support (N : NormalRV ℝ) (rv : LognormalRV ℝ) (p : ℝ)
    (h0 : 0 ≤ p) (h1 : p ≤ 1) :
    (rv.isPositive = true → 0 < (getInverseCDFvalue realMath N rv p).value) ∧
    (rv.isPositive = false → (getInverseCDFvalue realMath N rv p).value < 0) ∧
    (getInverseCDFvalue realMath N { rv with isPositive := false } p).value
      = -(getInverseCDFvalue realMath N { rv with isPositive := true } (1 - p)).value := by
  have hq : ¬ (p > 1 ∨ p < 0) := by
    rintro (h | h)
    · exact absurd h (not_lt.mpr h1)
    · exact absurd h (not_lt.mpr h0)
  have hq' : ¬ (1 - p > 1 ∨ 1 - p < 0) := by
    rintro (h | h) <;> linarith
  refine ⟨?_, ?_, ?_⟩
  · intro hpos
    simp only [getInverseCDFvalue, if_neg hq, hpos, if_true, realMath]
    exact Real.exp_pos _
  · intro hpos
    simp only [getInverseCDFvalue, if_neg hq, hpos, Bool.false_eq_true, if_false, realMath]
    exact neg_lt_zero.mpr (Real.exp_pos _)
  · simp only [getInverseCDFvalue, if_neg hq, if_neg hq', Bool.false_eq_true, if_false,
      if_true]

/-- C17 with the helper `logisticNormal` on the degenerate state
`lambda = 0`, `zeta = 0`, `isPositive = true`, at `p = 1/2`. -/
theorem C17_quantiles_in_support_witness :
    (0 : ℝ) ≤ 1 / 2 ∧ (1 / 2 : ℝ) ≤ 1 ∧
    0 < (getInverseCDFvalue realMath logisticNormal
      { tag := 1, startValue := 0, lambda := 0, zeta := 0, isPositive := true }
      (1 / 2)).value :=
  ⟨by norm_num, by norm_num,
    (C17_quantiles_in_support logisticNormal
      { tag := 1, startValue := 0, lambda := 0, zeta := 0, isPositive := true }
      (1 / 2) (by norm_num) (by norm_num)).1 rfl⟩

/-- C18: for every mean `0 < m < 1` and `s ≥ 0`, the instance `A` built from
`(m, s)` has `isPositive = true` and `lambda < 0`, and the instance `B` built
by the parameter-vector constructor from `A.getParameters` has
`isPositive = false`, `lambda = -A.lambda` and `getMean < 0`, so `B.getMean`
differs from `A.getMean = m`. -/
theorem C18_parameters_do_not_round_trip (tagA tagB : Int) (m s : ℝ)
    (h0 : 0 < m) (h1 : m < 1) (hs : 0 ≤ s) :
    (ofMoments realMath tagA m s).1.isPositive = true ∧
    (ofMoments realMath tagA m s).1.lambda < 0 ∧
    (ofParameters tagB (getParameters (ofMoments realMath tagA m s).1)).1.isPositive
      = false ∧
    (ofParameters tagB (getParameters (ofMoments realMath tagA m s).1)).1.lambda
      = -(ofMoments realMath tagA m s).1.lambda ∧
    getMean realMath (ofParameters tagB (getParameters (ofMoments realMath tagA m s).1)).1
      < 0 ∧
    getMean realMath (ofMoments realMath tagA m s).1 = m ∧
    getMean realMath (ofParameters tagB (getParameters (ofMoments realMath tagA m s).1)).1
      ≠ getMean realMath (ofMoments realMath tagA m s).1 := by
  have hmean : getMean realMath (ofMoments realMath tagA m s).1 = m := by
    rw [ofMoments_of_nonneg tagA m s h0.le]
    simpa [getMean, realMath] using (moments_of_setParameters m s h0 hs).1
  have hlam : (ofMoments realMath tagA m s).1.lambda < 0 := by
    rw [ofMoments_of_nonneg tagA m s h0.le]
    simp only
    have hlog : Real.log m < 0 := Real.log_neg h0 h1
    have hz := Real.mul_self_sqrt (log_one_add_sq_nonneg (s / m))
    rw [mul_assoc, hz]
    linarith [log_one_add_sq_nonneg (s / m)]
  have hpA : (ofMoments realMath tagA m s).1.isPositive = true := by
    rw [ofMoments_of_nonneg tagA m s h0.le]
  have hB : (ofParameters tagB (getParameters (ofMoments realMath tagA m s).1)).1
      = { tag := tagB, startValue := 0, lambda := -(ofMoments realMath tagA m s).1.lambda,
          zeta := (ofMoments realMath tagA m s).1.zeta, isPositive := false } := by
    simp [ofParameters, getParameters, hlam]
  have hmB : getMean realMath
      (ofParameters tagB (getParameters (ofMoments realMath tagA m s).1)).1 < 0 := by
    rw [hB]
    simp only [getMean, realMath, Bool.false_eq_true, if_false]
    exact neg_lt_zero.mpr (Real.exp_pos _)
  refine ⟨hpA, hlam, by rw [hB], by rw [hB], hmB, hmean, ?_⟩
  rw [hmean]
  exact ne_of_lt (lt_trans hmB h0)

/-- C18 at `mean = 0.5`, `stdv = 0.1`. -/
theorem C18_parameters_do_not_round_trip_witness :
    (0 : ℝ) < 0.5 ∧ (0.5 : ℝ) < 1 ∧ (0 : ℝ) ≤ 0.1 ∧
    (ofParameters 2 (getParameters (ofMoments realMath 1 0.5 0.1).1)).1.isPositive
      = false ∧
    getMean realMath (ofParameters 2 (getParameters (ofMoments realMath 1 0.5 0.1).1)).1
      ≠ getMean realMath (ofMoments realMath 1 0.5 0.1).1 :=
  ⟨by norm_num, by norm_num, by norm_num,
    (C18_parameters_do_not_round_trip 1 2 0.5 0.1 (by norm_num) (by norm_num)
      (by norm_num)).2.2.1,
    (C18_parameters_do_not_round_trip 1 2 0.5 0.1 (by norm_num) (by norm_num)
      (by norm_num)).2.2.2.2.2.2⟩

/-- C19: for a helper whose distribution function has its values in `[0, 1]`,
every instance and every real `x` have `0 ≤ getCDFvalue x ≤ 1`; the value is
`0` for `x ≤ 0` on a positive instance and for `x ≥ 0` on a negative one. -/
theorem C19_cdf_is_probability (N : NormalRV ℝ)
    (hN : ∀ t : ℝ, 0 ≤ N.getCDFvalue t ∧ N.getCDFvalue t ≤ 1)
    (rv : LognormalRV ℝ) (x : ℝ) :
    0 ≤ getCDFvalue realMath N rv x ∧
    getCDFvalue realMath N rv x ≤ 1 ∧
    (rv.isPositive = true → x ≤ 0 → getCDFvalue realMath N rv x = 0) ∧
    (rv.isPositive = false → 0 ≤ x → getCDFvalue realMath N rv x = 0) := by
  have hzero_pos : rv.isPositive = true → x ≤ 0 → getCDFvalue realMath N rv x = 0 := by
    intro hpos hx
    simp [getCDFvalue, hpos, not_lt.mpr hx]
  have hzero_neg : rv.isPositive = false → 0 ≤ x → getCDFvalue realMath N rv x = 0 := by
    intro hpos hx
    simp [getCDFvalue, hpos, not_lt.mpr hx]
  have hboth : 0 ≤ getCDFvalue realMath N rv x ∧ getCDFvalue realMath N rv x ≤ 1 := by
    cases hpos : rv.isPositive
    · rcases lt_or_le x 0 with hx | hx
      · rw [getCDFvalue_of_negative N rv hpos x hx]
        exact hN _
      · rw [hzero_neg hpos hx]
        exact ⟨le_refl 0, zero_le_one⟩
    · rcases lt_or_le 0 x with hx | hx
      · rw [getCDFvalue_of_positive N rv hpos x hx]
        exact hN _
      · rw [hzero_pos hpos hx]
        exact ⟨le_refl 0, zero_le_one⟩
  exact ⟨hboth.1, hboth.2, hzero_pos, hzero_neg⟩

/-- C19 with the helper `logisticNormal` on the negative instance built from
the parameter vector `[-1, 1]`, at `x = -2` and at `x = 3`. -/
theorem C19_cdf_is_probability_witness :
    (∀ t : ℝ, 0 ≤ logisticNormal.getCDFvalue t ∧ logisticNormal.getCDFvalue t ≤ 1) ∧
    0 ≤ getCDFvalue realMath logisticNormal (ofParameters 1 [(-1 : ℝ), 1]).1 (-2) ∧
    getCDFvalue realMath logisticNormal (ofParameters 1 [(-1 : ℝ), 1]).1 (-2) ≤ 1 ∧
    getCDFvalue realMath logisticNormal (ofParameters 1 [(-1 : ℝ), 1]).1 3 = 0 :=
  have h : ∀ t : ℝ, 0 ≤ logisticNormal.getCDFvalue t ∧ logisticNormal.getCDFvalue t ≤ 1 :=
    fun t => ⟨(logisticNormal_range t).1.le, (logisticNormal_range t).2.le⟩
  ⟨h, (C19_cdf_is_probability logisticNormal h _ (-2)).1,
    (C19_cdf_is_probability logisticNormal h _ (-2)).2.1,
    (C19_cdf_is_probability logisticNormal h (ofParameters 1 [(-1 : ℝ), 1]).1 3).2.2.2
      (by rw [ofParameters_neg_one_one]) (by norm_num)⟩

end Inverse

/-! ## The standard normal law and the distribution function at the mean -/

section Gaussian

open LognormalRV MeasureTheory ProbabilityTheory

/-- The density of the spec is the Gaussian density of mean `0` and variance `1`. -/
theorem standardNormalPDF_eq_gaussian : standardNormalPDF = gaussianPDFReal 0 1 := by
  funext x
  simp [standardNormalPDF, gaussianPDFReal]

/-- The standard-normal density is integrable. -/
theorem standardNormalPDF_integrable : Integrable standardNormalPDF := by
  rw [standardNormalPDF_eq_gaussian]
  exact integrable_gaussianPDFReal 0 1

/-- The standard-normal density has total mass `1`. -/
theorem standardNormalPDF_integral : ∫ t, standardNormalPDF t = 1 := by
  rw [standardNormalPDF_eq_gaussian]
  exact integral_gaussianPDFReal_eq_one 0 one_ne_zero

/-- The standard-normal density is not negative. -/
theorem standardNormalPDF_nonneg (x : ℝ) : 0 ≤ standardNormalPDF x := by
  unfold standardNormalPDF
  positivity

/-- The standard-normal density is even. -/
theorem standardNormalPDF_neg (x : ℝ) : standardNormalPDF (-x) = standardNormalPDF x := by
  simp [standardNormalPDF]

/-- Half of the standard-normal mass lies at or below `0`. -/
theorem standardNormalCDF_zero : standardNormalCDF 0 = 1 / 2 := by
  have h1 := integral_add_compl (measurableSet_Iic (a := (0 : ℝ))) standardNormalPDF_integrable
  rw [Set.compl_Iic, standardNormalPDF_integral] at h1
  have h2 := integral_comp_neg_Iic 0 standardNormalPDF
  simp only [standardNormalPDF_neg, neg_zero] at h2
  unfold standardNormalCDF
  linarith

/-- The standard-normal mass at or below `x ≥ 0` is `1/2` plus the mass of `(0, x]`. -/
theorem standardNormalCDF_sub_zero (x : ℝ) (hx : 0 ≤ x) :
    standardNormalCDF x = 1 / 2 + ∫ t in Set.Ioc 0 x, standardNormalPDF t := by
  rw [← standardNormalCDF_zero]
  unfold standardNormalCDF
  rw [← Set.Iic_union_Ioc_eq_Iic hx]
  exact setIntegral_union (Set.Iic_disjoint_Ioc (le_refl 0)) measurableSet_Ioc
    standardNormalPDF_integrable.integrableOn standardNormalPDF_integrable.integrableOn

/-- The standard-normal distribution function is monotone. -/
theorem standardNormalCDF_monotone : Monotone standardNormalCDF := by
  intro a b hab
  unfold standardNormalCDF
  apply setIntegral_mono_set standardNormalPDF_integrable.integrableOn
  · exact Filter.Eventually.of_forall standardNormalPDF_nonneg
  · exact (Set.Iic_subset_Iic.mpr hab).eventuallyLE

/-- An upper bound of the standard-normal distribution function at `x ≥ 0`: the
density is at most its value at `0`. -/
theorem standardNormalCDF_upper (x : ℝ) (hx : 0 ≤ x) :
    standardNormalCDF x ≤ 1 / 2 + x * (1 / Real.sqrt (2 * Real.pi)) := by
  rw [standardNormalCDF_sub_zero x hx]
  have hc : ∫ _t in Set.Ioc 0 x, (1 / Real.sqrt (2 * Real.pi)) = x * (1 / Real.sqrt (2 * Real.pi)) := by
    rw [setIntegral_const, Real.volume_Ioc, sub_zero, ENNReal.toReal_ofReal hx, smul_eq_mul]
  rw [← hc]
  apply add_le_add_left
  apply setIntegral_mono_on standardNormalPDF_integrable.integrableOn
    (integrableOn_const.mpr (Or.inr (by simp))) measurableSet_Ioc
  intro t _
  unfold standardNormalPDF
  have h1 : Real.exp (-(t ^ 2) / 2) ≤ 1 := by
    rw [Real.exp_le_one_iff]
    have := sq_nonneg t
    linarith
  have h2 : 0 ≤ 1 / Real.sqrt (2 * Real.pi) := by positivity
  calc 1 / Real.sqrt (2 * Real.pi) * Real.exp (-(t ^ 2) / 2)
      ≤ 1 / Real.sqrt (2 * Real.pi) * 1 := mul_le_mul_of_nonneg_left h1 h2
    _ = 1 / Real.sqrt (2 * Real.pi) := mul_one _

/-- A lower bound of the standard-normal distribution function at `x ≥ 0`: on
`(0, x]` the density is at least `(1/√(2π)) (1 - x²/2)`. -/
theorem standardNormalCDF_lower (x : ℝ) (hx : 0 ≤ x) :
    1 / 2 + x * (1 / Real.sqrt (2 * Real.pi) * (1 - x ^ 2 / 2)) ≤ standardNormalCDF x := by
  rw [standardNormalCDF_sub_zero x hx]
  have hc : ∫ _t in Set.Ioc 0 x, (1 / Real.sqrt (2 * Real.pi) * (1 - x ^ 2 / 2))
      = x * (1 / Real.sqrt (2 * Real.pi) * (1 - x ^ 2 / 2)) := by
    rw [setIntegral_const, Real.volume_Ioc, sub_zero, ENNReal.toReal_ofReal hx, smul_eq_mul]
  rw [← hc]
  apply add_le_add_left
  apply setIntegral_mono_on (integrableOn_const.mpr (Or.inr (by simp)))
    standardNormalPDF_integrable.integrableOn measurableSet_Ioc
  intro t ht
  unfold standardNormalPDF
  have h2 : 0 ≤ 1 / Real.sqrt (2 * Real.pi) := by positivity
  apply mul_le_mul_of_nonneg_left _ h2
  have h3 : t ^ 2 ≤ x ^ 2 := pow_le_pow_left₀ ht.1.le ht.2 2
  have h4 := Real.add_one_le_exp (-(t ^ 2) / 2)
  linarith

/-- Bounds on `1/√(2π)` from `3.14 < π < 3.15`. -/
theorem inv_sqrt_two_pi_bounds :
    (0.3984 : ℝ) < 1 / Real.sqrt (2 * Real.pi) ∧ 1 / Real.sqrt (2 * Real.pi) < 0.3993 := by
  have h1 := Real.pi_gt_d2
  have h2 := Real.pi_lt_d2
  have hlo : (2.505 : ℝ) < Real.sqrt (2 * Real.pi) := by
    rw [Real.lt_sqrt (by norm_num)]
    norm_num
    linarith
  have hhi : Real.sqrt (2 * Real.pi) < 2.51 := by
    rw [Real.sqrt_lt' (by norm_num)]
    norm_num
    linarith
  have hpos : (0 : ℝ) < Real.sqrt (2 * Real.pi) := by linarith
  constructor
  · rw [lt_div_iff₀ hpos]
    linarith
  · rw [div_lt_iff₀ hpos]
    linarith

/-- The standard-normal distribution function near `0.099`. -/
theorem standardNormalCDF_bounds_near (x : ℝ) (h1 : 0.09895 < x) (h2 : x < 0.09905) :
    0.5392 < standardNormalCDF x ∧ standardNormalCDF x < 0.5396 := by
  have hx : 0 ≤ x := by linarith
  have hu := standardNormalCDF_upper x hx
  have hl := standardNormalCDF_lower x hx
  obtain ⟨c1, c2⟩ := inv_sqrt_two_pi_bounds
  have hc0 : (0 : ℝ) < 1 / Real.sqrt (2 * Real.pi) := by linarith
  constructor
  · have hsq : x ^ 2 < 0.00982 := by nlinarith
    have hf : (0.99509 : ℝ) < 1 - x ^ 2 / 2 := by linarith
    have hcf : (0.3964 : ℝ) < 1 / Real.sqrt (2 * Real.pi) * (1 - x ^ 2 / 2) := by nlinarith
    have : (0.0392 : ℝ) < x * (1 / Real.sqrt (2 * Real.pi) * (1 - x ^ 2 / 2)) := by nlinarith
    linarith
  · have : x * (1 / Real.sqrt (2 * Real.pi)) < 0.0396 := by nlinarith
    linarith

/-- The distribution function at the mean of an instance built from moments
`m > 0` with `zeta > 0`: the helper's distribution function at `zeta / 2`. -/
theorem cdf_at_mean (N : NormalRV ℝ) (tag : Int) (m s : ℝ) (hm : 0 < m)
    (hz : 0 < (ofMoments realMath tag m s).1.zeta) :
    getCDFvalue realMath N (ofMoments realMath tag m s).1 m
      = N.getCDFvalue ((ofMoments realMath tag m s).1.zeta / 2) := by
  have hpos : (ofMoments realMath tag m s).1.isPositive = true := by
    rw [ofMoments_of_nonneg tag m s hm.le]
  rw [getCDFvalue_of_positive N _ hpos m hm]
  congr 1
  have hlam : (ofMoments realMath tag m s).1.lambda
      = Real.log m - 0.5 * (ofMoments realMath tag m s).1.zeta
          * (ofMoments realMath tag m s).1.zeta := by
    rw [ofMoments_of_nonneg tag m s hm.le]
  rw [hlam]
  field_simp
  ring

/-- The scale parameter of the instance built from `mean = 100`, `stdv = 20`. -/
theorem zeta_100_20_bounds :
    0.1979 < (ofMoments realMath 1 100 20).1.zeta ∧
    (ofMoments realMath 1 100 20).1.zeta < 0.1981 := by
  have hr : (1 : ℝ) + (20 / 100) * (20 / 100) = 1.04 := by norm_num
  have hL := log_104_bounds
  rw [ofMoments_of_nonneg 1 100 20 (by norm_num), hr]
  simp only
  constructor
  · rw [Real.lt_sqrt (by norm_num)]
    norm_num
    linarith [hL.1]
  · rw [Real.sqrt_lt' (by norm_num)]
    norm_num
    linarith [hL.2]

/-- The distribution function at the mean for `mean = 100`, `stdv = 20`, with
the standard-normal helper of the spec. -/
theorem cdf_at_mean_100_20_bounds :
    0.5392 < getCDFvalue realMath standardNormal (ofMoments realMath 1 100 20).1 100 ∧
    getCDFvalue realMath standardNormal (ofMoments realMath 1 100 20).1 100 < 0.5396 := by
  obtain ⟨z1, z2⟩ := zeta_100_20_bounds
  rw [cdf_at_mean standardNormal 1 100 20 (by norm_num) (by linarith)]
  exact standardNormalCDF_bounds_near _ (by linarith) (by linarith)

/-- C11 fails as stated: with the standard-normal distribution function,
`getCDFvalue 100` of the instance built from `mean = 100`, `stdv = 20` is not
within `0.01` of `0.4754` and is not below `0.5`; and it is not below `0.5`
for any helper whose distribution function is monotone with value `0.5` at
`0`. -/
theorem C11_cdf_at_mean_not_below_half :
    ¬ (|getCDFvalue realMath standardNormal (ofMoments realMath 1 100 20).1 100 - 0.4754|
        < 0.01) ∧
    ¬ (getCDFvalue realMath standardNormal (ofMoments realMath 1 100 20).1 100 < 0.5) ∧
    (∀ N : NormalRV ℝ, Monotone N.getCDFvalue → N.getCDFvalue 0 = 0.5 →
      ¬ (getCDFvalue realMath N (ofMoments realMath 1 100 20).1 100 < 0.5)) := by
  obtain ⟨b1, b2⟩ := cdf_at_mean_100_20_bounds
  obtain ⟨z1, z2⟩ := zeta_100_20_bounds
  refine ⟨?_, ?_, ?_⟩
  · rw [abs_lt]
    intro h
    linarith [h.2]
  · intro h
    linarith
  · intro N hN h0 h
    rw [cdf_at_mean N 1 100 20 (by norm_num) (by linarith)] at h
    have : N.getCDFvalue 0 ≤ N.getCDFvalue ((ofMoments realMath 1 100 20).1.zeta / 2) :=
      hN (by linarith)
    linarith

/-- C11 as amended: with the standard-normal distribution function (monotone,
value `0.5` at `0`), `getCDFvalue 100` of the instance built from `mean = 100`,
`stdv = 20` is within `0.01` (even within `0.001`) of `0.5394` and strictly
above `0.5`. -/
theorem C11_cdf_at_mean_value :
    Monotone standardNormal.getCDFvalue ∧
    standardNormal.getCDFvalue 0 = 0.5 ∧
    |getCDFvalue realMath standardNormal (ofMoments realMath 1 100 20).1 100 - 0.5394|
      < 0.01 ∧
    |getCDFvalue realMath standardNormal (ofMoments realMath 1 100 20).1 100 - 0.5394|
      < 0.001 ∧
    0.5 < getCDFvalue realMath standardNormal (ofMoments realMath 1 100 20).1 100 := by
  obtain ⟨b1, b2⟩ := cdf_at_mean_100_20_bounds
  refine ⟨standardNormalCDF_monotone, ?_, ?_, ?_, by linarith⟩
  · show standardNormalCDF 0 = 0.5
    rw [standardNormalCDF_zero]
    norm_num
  · rw [abs_lt]
    constructor <;> linarith
  · rw [abs_lt]
    constructor <;> linarith

end Gaussian

/-! ## Divisions in the degenerate state -/

section Degenerate

open LognormalRV

/-- When `getPDFvalueChecked` performs no division by zero, its value is the
value of `getPDFvalue`. -/
theorem getPDFvalue_of_checked {α : Type} [LinearOrderedField α] (M : CMath α)
    (rv : LognormalRV α) (x v : α) (h : getPDFvalueChecked M rv x = some v) :
    getPDFvalue M rv x = v := by
  unfold getPDFvalueChecked checkedDiv at h
  unfold getPDFvalue
  simp only at h ⊢
  split_ifs at h ⊢ <;> simp_all

/-- When `getCDFvalueChecked` performs no division by zero, its value is the
value of `getCDFvalue`. -/
theorem getCDFvalue_of_checked {α : Type} [LinearOrderedField α] (M : CMath α)
    (N : NormalRV α) (rv : LognormalRV α) (x v : α)
    (h : getCDFvalueChecked M N rv x = some v) :
    getCDFvalue M N rv x = v := by
  unfold getCDFvalueChecked checkedDiv at h
  unfold getCDFvalue
  simp only at h ⊢
  split_ifs at h ⊢ <;> simp_all

/-- With `zeta ≠ 0` neither `getPDFvalue` nor `getCDFvalue` divides by zero. -/
theorem checked_isSome_of_zeta_ne_zero (N : NormalRV ℝ) (rv : LognormalRV ℝ)
    (hz : rv.zeta ≠ 0) (x : ℝ) :
    (getPDFvalueChecked realMath rv x).isSome = true ∧
    (getCDFvalueChecked realMath N rv x).isSome = true := by
  have hpi : Real.sqrt (2 * Real.pi) ≠ 0 :=
    (Real.sqrt_pos.mpr (by positivity)).ne.symm
  constructor
  · unfold getPDFvalueChecked checkedDiv
    simp only [realMath]
    split_ifs with h1 h2 <;> simp_all
  · unfold getCDFvalueChecked checkedDiv
    simp only [realMath]
    split_ifs <;> simp_all

/-- C14 fails as stated: in the degenerate state left by the three-element
parameter vector `[1, 2, 3]`, `getPDFvalue 1` and `getCDFvalue 1` divide by
`zeta = 0`. -/
theorem C14_degenerate_divides_by_zero :
    (ofParameters 1 [(1 : ℝ), 2, 3]).1
      = { tag := 1, startValue := 0, lambda := 0, zeta := 0, isPositive := true } ∧
    getPDFvalueChecked realMath (ofParameters 1 [(1 : ℝ), 2, 3]).1 1 = none ∧
    getCDFvalueChecked realMath logisticNormal (ofParameters 1 [(1 : ℝ), 2, 3]).1 1
      = none := by
  refine ⟨by simp [ofParameters], ?_, ?_⟩
  · simp [ofParameters, getPDFvalueChecked, checkedDiv]
  · simp [ofParameters, getCDFvalueChecked, checkedDiv]

/-- C14 as amended: in the degenerate state `lambda = 0`, `zeta = 0`,
`isPositive = true`, with division failing on a zero divisor, `getPDFvalue x`
and `getCDFvalue x` perform no division and return `0` for every `x ≤ 0`, and
divide by `zeta = 0` for every `x > 0`: the domain checks test `x`, not
`zeta`. -/
theorem C14_degenerate_division_guard (N : NormalRV ℝ) (tag : Int) (start x : ℝ) :
    (x ≤ 0 →
      getPDFvalueChecked realMath
        { tag := tag, startValue := start, lambda := 0, zeta := 0, isPositive := true } x
        = some 0 ∧
      getCDFvalueChecked realMath N
        { tag := tag, startValue := start, lambda := 0, zeta := 0, isPositive := true } x
        = some 0) ∧
    (0 < x →
      getPDFvalueChecked realMath
        { tag := tag, startValue := start, lambda := 0, zeta := 0, isPositive := true } x
        = none ∧
      getCDFvalueChecked realMath N
        { tag := tag, startValue := start, lambda := 0, zeta := 0, isPositive := true } x
        = none) := by
  constructor
  · intro hx
    simp [getPDFvalueChecked, getCDFvalueChecked, not_lt.mpr hx]
  · intro hx
    simp [getPDFvalueChecked, getCDFvalueChecked, checkedDiv, hx]

end Degenerate

end OpenSees
